import Mathlib

/-!
Shallow embedding of the Go package `maps` (files maps.go and iter.go).

A Go map value of type `map[K]V` is modelled as `Option (List (K × V))`:
`none` is the nil map, `some l` a non-nil map whose entries are the
association list `l`.  A list representing a real Go map has no duplicate
keys; this invariant is the predicate `WF`.  Go's built-in map operations
are modelled by the association-list primitives `lookupA` (indexing),
`setA` (assignment `m[k] = v`) and `eraseA` (`delete(m, k)`).  Functions
that can panic in Go (`Update`, `FromFuncs`) return `Except String`;
all other functions are total, mirroring the absence of panics in their
bodies.  Go slices that the source distinguishes from nil are modelled as
`Option (List _)`.
-/

namespace Maps

variable {K V : Type} [DecidableEq K]

/-- A Go map: `none` is the nil map, `some l` a non-nil map with entries `l`. -/
abbrev GoMap (K V : Type) : Type := Option (List (K × V))

/-- The entries over which Go's `range m` iterates (nil map: none). -/
def listOf (m : GoMap K V) : List (K × V) := m.getD []

/-- Go's `len(m)` (0 for the nil map). -/
def lenGo (m : GoMap K V) : Nat := (listOf m).length

/-- Go map indexing `v, ok := m[k]` on the entry list. -/
def lookupA (l : List (K × V)) (k : K) : Option V :=
  match l with
  | [] => none
  | (k', v') :: t => if k' = k then some v' else lookupA t k

/-- Go map assignment `m[k] = v` on the entry list. -/
def setA (l : List (K × V)) (k : K) (v : V) : List (K × V) :=
  match l with
  | [] => [(k, v)]
  | (k', v') :: t => if k' = k then (k, v) :: t else (k', v') :: setA t k v

/-- Go's `delete(m, k)` on the entry list. -/
def eraseA (l : List (K × V)) (k : K) : List (K × V) :=
  match l with
  | [] => []
  | (k', v') :: t => if k' = k then t else (k', v') :: eraseA t k

/-- Indexing a possibly nil map (`m[k]` on a nil map reports absence). -/
def lookupGo (m : GoMap K V) (k : K) : Option V := lookupA (listOf m) k

/-- Well-formedness: a value that a real Go map can have (no duplicate keys). -/
def WF (m : GoMap K V) : Prop := ((listOf m).map Prod.fst).Nodup

instance (m : GoMap K V) : Decidable (WF m) := by
  unfold WF; infer_instance

/-! ### The functions of maps.go -/

/-- `Clone` (maps.go): nil in, nil out; otherwise copy every entry into a
fresh map. -/
def Clone (m : GoMap K V) : GoMap K V :=
  match m with
  | none => none
  | some l => some (l.foldl (fun acc kv => setA acc kv.1 kv.2) [])

/-- The loop body of `Update`: write every entry of `l2` into `l1`. -/
def updateList (l1 l2 : List (K × V)) : List (K × V) :=
  l2.foldl (fun acc kv => setA acc kv.1 kv.2) l1

/-- `Update` (maps.go): panics on a nil destination, otherwise writes every
entry of `m2` into `m1`.  The mutation of `m1` is modelled by returning the
new value of `m1`. -/
def Update (m1 m2 : GoMap K V) : Except String (GoMap K V) :=
  match m1 with
  | none => Except.error "cannot update nil map"
  | some l1 => Except.ok (some (updateList l1 (listOf m2)))

/-- `Clear` (maps.go): delete every key of `m` from `m`. -/
def Clear (m : GoMap K V) : GoMap K V :=
  match m with
  | none => none
  | some l => some ((l.map Prod.fst).foldl (fun acc k => eraseA acc k) l)

/-- `Contains` (maps.go). -/
def Contains (m : GoMap K V) (key : K) : Bool :=
  (lookupGo m key).isSome

/-- `Get` (maps.go). -/
def Get (m : GoMap K V) (key : K) (dflt : V) : V :=
  match lookupGo m key with
  | some v => v
  | none => dflt

/-- `Keys` (maps.go): nil in, nil out; otherwise the slice of keys. -/
def Keys (m : GoMap K V) : Option (List K) :=
  match m with
  | none => none
  | some l => some (l.map Prod.fst)

/-- `Values` (maps.go): nil in, nil out; otherwise the slice of values. -/
def Values (m : GoMap K V) : Option (List V) :=
  match m with
  | none => none
  | some l => some (l.map Prod.snd)

/-- `EqualFunc` (maps.go): length check, nil-vs-non-nil check, then every
entry of `m1` must be present in `m2` with a value accepted by `equal`. -/
def EqualFunc (m1 m2 : GoMap K V) (equal : V → V → Bool) : Bool :=
  if lenGo m1 != lenGo m2 then false
  else if (m1.isNone && !m2.isNone) || (!m1.isNone && m2.isNone) then false
  else (listOf m1).all fun kv =>
    match lookupA (listOf m2) kv.1 with
    | none => false
    | some v2 => equal kv.2 v2

/-- `Equal` (maps.go): `EqualFunc` with built-in value equality. -/
def Equal [DecidableEq V] (m1 m2 : GoMap K V) : Bool :=
  EqualFunc m1 m2 fun v1 v2 => decide (v1 = v2)

/-- `Item` (maps.go): a key-value pair. -/
structure Item (K V : Type) where
  Key : K
  Value : V
  deriving DecidableEq

/-- `Items` (maps.go): nil in, nil out; otherwise one `Item` per entry. -/
def Items (m : GoMap K V) : Option (List (Item K V)) :=
  match m with
  | none => none
  | some l => some (l.map fun kv => Item.mk kv.1 kv.2)

/-- `FromItems` (maps.go): nil slice in, nil map out; otherwise write each
item into a fresh map (later duplicate keys overwrite earlier ones). -/
def FromItems (items : Option (List (Item K V))) : GoMap K V :=
  match items with
  | none => none
  | some its => some (its.foldl (fun acc it => setA acc it.Key it.Value) [])

/-- `FromSlices` (maps.go): nil keys slice in, nil map out; otherwise pair
`keys[i]` with `values[i]`, using the zero value of `V` for surplus keys
and ignoring surplus values.  A nil values slice behaves exactly like an
empty one in the source (only `len` and indexing are applied to it), so
`values` is a plain list. -/
def FromSlices [Inhabited V] (keys : Option (List K)) (values : List V) : GoMap K V :=
  match keys with
  | none => none
  | some ks => some (ks.enum.foldl
      (fun acc ik =>
        setA acc ik.2 (if ik.1 < values.length then (values.get? ik.1).getD default else default))
      [])

/-- `FromFuncs` (maps.go): panics if `size` is negative or `keys` is nil;
otherwise calls `keys` (and `values`, when non-nil) once per iteration,
`size` times.  A generator function is modelled by a function of the call
index, so the i-th call of `keys` returns `kf i`. -/
def FromFuncs [Inhabited V] (size : Int) (keys : Option (Nat → K))
    (values : Option (Nat → V)) : Except String (GoMap K V) :=
  if size < 0 then Except.error "size must be >= 0"
  else
    match keys with
    | none => Except.error "nil functions"
    | some kf => Except.ok (some ((List.range size.toNat).foldl
        (fun acc i =>
          setA acc (kf i) (match values with
            | none => default
            | some vf => vf i))
        []))

/-- `KeysForValueFunc` (maps.go): nil in, nil out; otherwise start from the
empty (non-nil) slice and append the key of every entry whose value the
predicate accepts. -/
def KeysForValueFunc (m : GoMap K V) (value : V) (equal : V → V → Bool) :
    Option (List K) :=
  match m with
  | none => none
  | some l => some (l.foldl (fun ks kv => if equal kv.2 value then ks ++ [kv.1] else ks) [])

/-- `KeysForValue` (maps.go): `KeysForValueFunc` with built-in equality. -/
def KeysForValue [DecidableEq V] (m : GoMap K V) (value : V) : Option (List K) :=
  KeysForValueFunc m value fun v1 v2 => decide (v1 = v2)

/-- `Delete` (maps.go): iterate over the entries, deleting each entry the
predicate accepts and counting the deletions.  The Go loop deletes only the
entry currently visited, so the iteration still reaches every original
entry; the fold mirrors that loop on the snapshot of the entries. -/
def Delete (m : GoMap K V) (fn : K → V → Bool) : Nat × GoMap K V :=
  match m with
  | none => (0, none)
  | some l =>
    let p := l.foldl
      (fun (acc : Nat × List (K × V)) kv =>
        if fn kv.1 kv.2 then (acc.1 + 1, eraseA acc.2 kv.1) else acc)
      (0, l)
    (p.1, some p.2)

/-! ### The functions of iter.go

An `iter.Seq2[K, V]` consumed to exhaustion yields a finite list of pairs;
`Iter m` is modelled by the list of pairs it yields, and likewise for
`IterKeys` and `IterValues` (early stopping by the consumer does not
change which map these functions read). -/

/-- `Iter` (iter.go): the pairs the iterator yields. -/
def iterSeq (m : GoMap K V) : List (K × V) := listOf m

/-- `IterKeys` (iter.go): the keys the iterator yields. -/
def iterKeysSeq (m : GoMap K V) : List K := (listOf m).map Prod.fst

/-- `IterValues` (iter.go): the values the iterator yields. -/
def iterValuesSeq (m : GoMap K V) : List V := (listOf m).map Prod.snd

/-- `Collect` (iter.go): always allocates a map (never nil) and writes every
yielded pair into it. -/
def Collect (seq : List (K × V)) : GoMap K V :=
  some (seq.foldl (fun acc kv => setA acc kv.1 kv.2) [])

/-! ### Association-list lemmas -/

theorem lookupA_setA (l : List (K × V)) (k k' : K) (v : V) :
    lookupA (setA l k v) k' = if k = k' then some v else lookupA l k' := by
  induction l with
  | nil => by_cases h : k = k' <;> simp [setA, lookupA, h]
  | cons kv t ih =>
    obtain ⟨k0, v0⟩ := kv
    by_cases h0 : k0 = k
    · subst h0
      by_cases h1 : k0 = k' <;> simp [setA, lookupA, h1]
    · simp only [setA, if_neg h0, lookupA]
      by_cases h1 : k0 = k'
      · have h2 : ¬ k = k' := fun e => h0 (h1.trans e.symm)
        simp [h1, h2, lookupA]
      · simp [h1, ih]

theorem lookupA_isSome_iff (l : List (K × V)) (k : K) :
    (lookupA l k).isSome = true ↔ k ∈ l.map Prod.fst := by
  induction l with
  | nil => simp [lookupA]
  | cons kv t ih =>
    obtain ⟨k0, v0⟩ := kv
    by_cases h : k0 = k
    · subst h; simp [lookupA]
    · have h' : ¬ k = k0 := fun e => h e.symm
      simp [lookupA, h, h', ih]

theorem lookupA_eq_none_iff (l : List (K × V)) (k : K) :
    lookupA l k = none ↔ k ∉ l.map Prod.fst := by
  rw [← lookupA_isSome_iff]
  cases lookupA l k <;> simp

theorem mem_iff_lookupA (l : List (K × V)) (k : K) (v : V)
    (h : (l.map Prod.fst).Nodup) : (k, v) ∈ l ↔ lookupA l k = some v := by
  induction l with
  | nil => simp [lookupA]
  | cons kv t ih =>
    obtain ⟨k0, v0⟩ := kv
    simp only [List.map_cons, List.nodup_cons] at h
    by_cases hk : k0 = k
    · subst hk
      have hl : lookupA ((k0, v0) :: t) k0 = some v0 := by simp [lookupA]
      rw [hl]
      simp only [List.mem_cons, Prod.mk.injEq, Option.some.injEq]
      constructor
      · rintro (⟨-, rfl⟩ | hmem)
        · rfl
        · exact absurd (List.mem_map_of_mem Prod.fst hmem) h.1
      · rintro rfl
        exact Or.inl ⟨by trivial, rfl⟩
    · have hl : lookupA ((k0, v0) :: t) k = lookupA t k := by simp [lookupA, hk]
      rw [hl, ← ih h.2]
      simp only [List.mem_cons, Prod.mk.injEq]
      constructor
      · rintro (⟨rfl, -⟩ | hmem)
        · exact absurd rfl hk
        · exact hmem
      · exact Or.inr

theorem keys_setA (l : List (K × V)) (k : K) (v : V) :
    (setA l k v).map Prod.fst =
      if k ∈ l.map Prod.fst then l.map Prod.fst else l.map Prod.fst ++ [k] := by
  induction l with
  | nil => simp [setA]
  | cons kv t ih =>
    obtain ⟨k0, v0⟩ := kv
    by_cases h : k0 = k
    · subst h; simp [setA]
    · by_cases h2 : k ∈ t.map Prod.fst <;>
        simp [setA, h, ih, h2, eq_comm, Ne.symm h]

theorem nodup_setA (l : List (K × V)) (k : K) (v : V)
    (h : (l.map Prod.fst).Nodup) : ((setA l k v).map Prod.fst).Nodup := by
  rw [keys_setA]
  by_cases h2 : k ∈ l.map Prod.fst
  · rw [if_pos h2]; exact h
  · rw [if_neg h2]
    simp [List.nodup_append, h, h2]

theorem nodup_foldl_setA (l init : List (K × V))
    (h : (init.map Prod.fst).Nodup) :
    (((l.foldl (fun acc kv => setA acc kv.1 kv.2) init)).map Prod.fst).Nodup := by
  induction l generalizing init with
  | nil => exact h
  | cons kv t ih => exact ih _ (nodup_setA _ _ _ h)

theorem lookupA_foldl_setA (l init : List (K × V)) (k : K) :
    lookupA (l.foldl (fun acc kv => setA acc kv.1 kv.2) init) k =
      ((l.reverse.find? fun kv => decide (kv.1 = k)).map Prod.snd).or
        (lookupA init k) := by
  induction l generalizing init with
  | nil => simp
  | cons kv t ih =>
    rw [List.foldl_cons, ih, List.reverse_cons, List.find?_append]
    by_cases h : kv.1 = k <;>
      cases hf : t.reverse.find? fun kv => decide (kv.1 = k) <;>
        simp [hf, lookupA_setA, h, List.find?]

theorem find?_reverse_eq_lookupA (l : List (K × V)) (k : K)
    (h : (l.map Prod.fst).Nodup) :
    ((l.reverse.find? fun kv => decide (kv.1 = k)).map Prod.snd) = lookupA l k := by
  induction l with
  | nil => simp [lookupA]
  | cons kv t ih =>
    obtain ⟨k0, v0⟩ := kv
    simp only [List.map_cons, List.nodup_cons] at h
    rw [List.reverse_cons, List.find?_append]
    by_cases hk : k0 = k
    · subst hk
      have hnone : (t.reverse.find? fun kv => decide (kv.1 = k0)) = none := by
        rw [List.find?_eq_none]
        intro x hx
        simp only [decide_eq_true_eq]
        intro hx1
        exact h.1 (hx1 ▸ List.mem_map_of_mem Prod.fst (List.mem_reverse.mp hx))
      simp [hnone, lookupA, List.find?]
    · have hsingle : (List.find? (fun kv => decide (kv.1 = k)) [(k0, v0)]) = none := by
        simp [List.find?, hk]
      rw [hsingle, Option.or_none, ih h.2]
      simp [lookupA, hk]

/-! ### Derived facts about the map operations -/

theorem lookupA_updateList (l1 l2 : List (K × V)) (k : K)
    (h2 : (l2.map Prod.fst).Nodup) :
    lookupA (updateList l1 l2) k = (lookupA l2 k).or (lookupA l1 k) := by
  unfold updateList
  rw [lookupA_foldl_setA, find?_reverse_eq_lookupA l2 k h2]

theorem nodup_updateList (l1 l2 : List (K × V))
    (h1 : (l1.map Prod.fst).Nodup) :
    ((updateList l1 l2).map Prod.fst).Nodup :=
  nodup_foldl_setA l2 l1 h1

theorem lookupGo_Clone (m : GoMap K V) (h : WF m) (k : K) :
    lookupGo (Clone m) k = lookupGo m k := by
  cases m with
  | none => rfl
  | some l =>
    show lookupA (updateList [] l) k = lookupA l k
    rw [lookupA_updateList [] l k h]
    cases hl : lookupA l k <;> simp [hl, lookupA]

theorem WF_Clone (m : GoMap K V) : WF (Clone m) := by
  cases m with
  | none => simp [WF, Clone, listOf]
  | some l => exact nodup_foldl_setA l [] (by simp)

theorem EqualFunc_some_some (l1 l2 : List (K × V)) (eq : V → V → Bool) :
    EqualFunc (some l1) (some l2) eq =
      (l1.length == l2.length && l1.all fun kv =>
        match lookupA l2 kv.1 with
        | none => false
        | some v2 => eq kv.2 v2) := by
  by_cases h : l1.length = l2.length <;> simp [EqualFunc, lenGo, listOf, h]

theorem EqualFunc_some_some_iff (l1 l2 : List (K × V)) (eq : V → V → Bool)
    (h1 : (l1.map Prod.fst).Nodup) (h2 : (l2.map Prod.fst).Nodup) :
    EqualFunc (some l1) (some l2) eq = true ↔
      ((∀ k, (lookupA l1 k).isSome = true ↔ (lookupA l2 k).isSome = true) ∧
       (∀ k v1 v2, lookupA l1 k = some v1 → lookupA l2 k = some v2 →
         eq v1 v2 = true)) := by
  rw [EqualFunc_some_some]
  simp only [Bool.and_eq_true, beq_iff_eq, List.all_eq_true]
  constructor
  · rintro ⟨hlen, hall⟩
    have hsub : ∀ k, k ∈ l1.map Prod.fst → k ∈ l2.map Prod.fst := by
      intro k hk
      obtain ⟨⟨k', v⟩, hmem, rfl⟩ := List.mem_map.mp hk
      have hmatch := hall _ hmem
      rw [← lookupA_isSome_iff]
      cases hl : lookupA l2 k' with
      | none => rw [hl] at hmatch; exact absurd hmatch (by simp)
      | some v2 => simp
    have hfin : (l1.map Prod.fst).toFinset = (l2.map Prod.fst).toFinset := by
      apply Finset.eq_of_subset_of_card_le
      · intro k hk
        exact List.mem_toFinset.mpr (hsub k (List.mem_toFinset.mp hk))
      · rw [List.toFinset_card_of_nodup h1, List.toFinset_card_of_nodup h2]
        simp [hlen]
    have hkeys : ∀ k, k ∈ l1.map Prod.fst ↔ k ∈ l2.map Prod.fst := by
      intro k
      rw [← List.mem_toFinset, ← List.mem_toFinset, hfin]
    refine ⟨fun k => ?_, fun k v1 v2 hv1 hv2 => ?_⟩
    · rw [lookupA_isSome_iff, lookupA_isSome_iff]
      exact hkeys k
    · have hmem : (k, v1) ∈ l1 := (mem_iff_lookupA l1 k v1 h1).mpr hv1
      have hmatch := hall _ hmem
      rw [hv2] at hmatch
      exact hmatch
  · rintro ⟨hkeys, hval⟩
    have hkeys' : ∀ k, k ∈ l1.map Prod.fst ↔ k ∈ l2.map Prod.fst := by
      intro k
      rw [← lookupA_isSome_iff, ← lookupA_isSome_iff]
      exact hkeys k
    constructor
    · have hfin : (l1.map Prod.fst).toFinset = (l2.map Prod.fst).toFinset :=
        Finset.ext fun k => by
          rw [List.mem_toFinset, List.mem_toFinset]; exact hkeys' k
      have := congrArg Finset.card hfin
      rw [List.toFinset_card_of_nodup h1, List.toFinset_card_of_nodup h2] at this
      simpa using this
    · intro kv hmem
      have hv1 : lookupA l1 kv.1 = some kv.2 := by
        rw [← mem_iff_lookupA _ _ _ h1]
        exact hmem
      have hs : (lookupA l2 kv.1).isSome = true := by
        rw [← (hkeys kv.1), hv1]
        rfl
      cases hl : lookupA l2 kv.1 with
      | none => rw [hl] at hs; exact absurd hs (by simp)
      | some v2 =>
        have := hval kv.1 kv.2 v2 hv1 hl
        simpa using this

theorem EqualFunc_eq_true_iff (m1 m2 : GoMap K V) (eq : V → V → Bool)
    (h1 : WF m1) (h2 : WF m2) :
    EqualFunc m1 m2 eq = true ↔
      (m1.isNone = m2.isNone ∧
       (∀ k, (lookupGo m1 k).isSome = true ↔ (lookupGo m2 k).isSome = true) ∧
       (∀ k v1 v2, lookupGo m1 k = some v1 → lookupGo m2 k = some v2 →
         eq v1 v2 = true)) := by
  cases m1 with
  | none =>
    cases m2 with
    | none => simp [EqualFunc, lenGo, listOf, lookupGo, lookupA]
    | some l2 =>
      have hL : EqualFunc (none : GoMap K V) (some l2) eq = false := by
        by_cases hl : l2.length = 0 <;> simp [EqualFunc, lenGo, listOf, hl]
      simp [hL]
  | some l1 =>
    cases m2 with
    | none =>
      have hL : EqualFunc (some l1) (none : GoMap K V) eq = false := by
        by_cases hl : l1.length = 0 <;> simp [EqualFunc, lenGo, listOf, hl]
      simp [hL]
    | some l2 =>
      rw [EqualFunc_some_some_iff l1 l2 eq h1 h2]
      simp [lookupGo, listOf]

theorem Equal_eq_true_iff [DecidableEq V] (m1 m2 : GoMap K V)
    (h1 : WF m1) (h2 : WF m2) :
    Equal m1 m2 = true ↔
      (m1.isNone = m2.isNone ∧ ∀ k, lookupGo m1 k = lookupGo m2 k) := by
  unfold Equal
  rw [EqualFunc_eq_true_iff m1 m2 _ h1 h2]
  constructor
  · rintro ⟨hnil, hkeys, hval⟩
    refine ⟨hnil, fun k => ?_⟩
    cases hv1 : lookupGo m1 k with
    | none =>
      cases hv2 : lookupGo m2 k with
      | none => rfl
      | some v2 =>
        have hs := (hkeys k).mpr (by rw [hv2]; rfl)
        rw [hv1] at hs
        exact absurd hs (by simp)
    | some v1 =>
      have hs := (hkeys k).mp (by rw [hv1]; rfl)
      cases hv2 : lookupGo m2 k with
      | none => rw [hv2] at hs; exact absurd hs (by simp)
      | some v2 =>
        have hv := hval k v1 v2 hv1 hv2
        simp only [decide_eq_true_eq] at hv
        rw [hv]
  · rintro ⟨hnil, hlook⟩
    refine ⟨hnil, fun k => by rw [hlook k], fun k v1 v2 hv1 hv2 => ?_⟩
    rw [hlook k] at hv1
    rw [hv1] at hv2
    injection hv2 with h
    simp [h]

theorem Equal_symm [DecidableEq V] (m1 m2 : GoMap K V)
    (h1 : WF m1) (h2 : WF m2) : Equal m1 m2 = Equal m2 m1 := by
  have hiff : Equal m1 m2 = true ↔ Equal m2 m1 = true := by
    rw [Equal_eq_true_iff m1 m2 h1 h2, Equal_eq_true_iff m2 m1 h2 h1]
    constructor
    · rintro ⟨a, b⟩; exact ⟨a.symm, fun k => (b k).symm⟩
    · rintro ⟨a, b⟩; exact ⟨a.symm, fun k => (b k).symm⟩
  cases hA : Equal m1 m2 <;> cases hB : Equal m2 m1 <;> simp_all

/-! ### Claim C1 -/

/-- Claim C1: `Equal m1 m2` is true iff the maps agree on nil-ness and have the
same key set with equal values (expressed as equal lookups at every key);
`Equal nil nil = true`; `Equal` distinguishes the nil map from an empty
non-nil map, in both argument orders; `Equal` is symmetric; and `EqualFunc`
satisfies the analogous characterization with the supplied predicate in
place of built-in value equality. -/
theorem claim_C1 [DecidableEq V] :
    (∀ (m1 m2 : GoMap K V), WF m1 → WF m2 →
      (Equal m1 m2 = true ↔
        (m1.isNone = m2.isNone ∧ ∀ k, lookupGo m1 k = lookupGo m2 k))) ∧
    (Equal (none : GoMap K V) none = true) ∧
    (Equal (none : GoMap K V) (some []) = false ∧
      Equal (some ([] : List (K × V))) none = false) ∧
    (∀ (m1 m2 : GoMap K V), WF m1 → WF m2 → Equal m1 m2 = Equal m2 m1) ∧
    (∀ (m1 m2 : GoMap K V) (eq : V → V → Bool), WF m1 → WF m2 →
      (EqualFunc m1 m2 eq = true ↔
        (m1.isNone = m2.isNone ∧
         (∀ k, (lookupGo m1 k).isSome = true ↔ (lookupGo m2 k).isSome = true) ∧
         (∀ k v1 v2, lookupGo m1 k = some v1 → lookupGo m2 k = some v2 →
           eq v1 v2 = true)))) :=
  ⟨fun m1 m2 h1 h2 => Equal_eq_true_iff m1 m2 h1 h2,
   rfl,
   ⟨rfl, rfl⟩,
   fun m1 m2 h1 h2 => Equal_symm m1 m2 h1 h2,
   fun m1 m2 eq h1 h2 => EqualFunc_eq_true_iff m1 m2 eq h1 h2⟩

/-- Witness for C1: the symmetry clause applied to two concrete maps. -/
theorem claim_C1_witness :
    Equal (some [((1 : Nat), (10 : Nat))]) (some [(1, 10), (2, 20)]) =
      Equal (some [(1, 10), (2, 20)]) (some [((1 : Nat), (10 : Nat))]) :=
  claim_C1.2.2.2.1 _ _ (by decide) (by decide)

theorem lookupA_eraseA_ne (l : List (K × V)) (k k' : K) (h : ¬ k = k') :
    lookupA (eraseA l k) k' = lookupA l k' := by
  induction l with
  | nil => rfl
  | cons kv t ih =>
    obtain ⟨k0, v0⟩ := kv
    by_cases h0 : k0 = k
    · subst h0; simp [eraseA, lookupA, h]
    · by_cases h1 : k0 = k'
      · subst h1
        simp [eraseA, lookupA, h0]
      · simp [eraseA, lookupA, h0, h1, ih]

theorem lookupA_updateList_nil (l : List (K × V)) (k : K)
    (h : (l.map Prod.fst).Nodup) : lookupA (updateList [] l) k = lookupA l k := by
  rw [lookupA_updateList [] l k h]
  cases hx : lookupA l k <;> simp [hx, lookupA]

/-! ### Claim C2 -/

/-- Claim C2: `Update dst src` panics exactly when `dst` is nil; on a non-nil
destination it succeeds and the resulting map's lookups are `src`'s entries
overriding `dst`'s (so the result is the union with `src` taking precedence
on collisions); a nil `src` leaves `dst` unchanged. -/
theorem claim_C2 :
    (∀ (m1 m2 : GoMap K V),
      (∃ e, Update m1 m2 = Except.error e) ↔ m1 = none) ∧
    (∀ (l1 : List (K × V)) (m2 : GoMap K V), WF m2 →
      ∃ l', Update (some l1) m2 = Except.ok (some l') ∧
        ∀ k, lookupA l' k = (lookupGo m2 k).or (lookupA l1 k)) ∧
    (∀ (l1 : List (K × V)), Update (some l1) none = Except.ok (some l1)) := by
  refine ⟨fun m1 m2 => ?_, fun l1 m2 h2 => ?_, fun l1 => rfl⟩
  · cases m1 with
    | none => simp [Update]
    | some l1 => simp [Update]
  · exact ⟨updateList l1 (listOf m2), rfl, fun k => lookupA_updateList l1 _ k h2⟩

/-- Witness for C2: the union clause applied to two concrete maps. -/
theorem claim_C2_witness :
    ∃ l', Update (some [((1 : Nat), (10 : Nat))]) (some [(1, 11), (2, 22)]) =
        Except.ok (some l') ∧
      ∀ k, lookupA l' k =
        (lookupGo (some [((1 : Nat), (11 : Nat)), (2, 22)]) k).or
          (lookupA [((1 : Nat), (10 : Nat))] k) :=
  claim_C2.2.1 _ _ (by decide)

/-! ### Claim C3 -/

/-- Claim C3: `Clone m` equals `m` by `Equal` for every well-formed map; the
clone of the nil map is nil, not an empty map; and writing to or deleting
from the clone of a non-nil map does not disturb the original: at every
other key the mutated clone still agrees with the original, whose value is
untouched (storage independence in the value model). -/
theorem claim_C3 [DecidableEq V] :
    (∀ (m : GoMap K V), WF m → Equal (Clone m) m = true) ∧
    (Clone (none : GoMap K V) = none) ∧
    (∀ (l : List (K × V)) (k : K) (v : V) (k' : K), WF (some l) → ¬ k' = k →
      ∃ cl, Clone (some l) = some cl ∧
        lookupA (setA cl k v) k' = lookupA l k' ∧
        lookupA (eraseA cl k) k' = lookupA l k') := by
  refine ⟨fun m h => ?_, rfl, fun l k v k' h h' => ?_⟩
  · rw [Equal_eq_true_iff (Clone m) m (WF_Clone m) h]
    refine ⟨?_, fun k => lookupGo_Clone m h k⟩
    cases m <;> rfl
  · refine ⟨updateList [] l, rfl, ?_, ?_⟩
    · rw [lookupA_setA, if_neg (fun e => h' e.symm), lookupA_updateList_nil l k' h]
    · rw [lookupA_eraseA_ne _ _ _ (fun e => h' e.symm),
        lookupA_updateList_nil l k' h]

/-- Witness for C3: mutating the clone of a concrete map leaves the other
key's binding intact. -/
theorem claim_C3_witness :
    ∃ cl, Clone (some [((1 : Nat), (10 : Nat)), (2, 20)]) = some cl ∧
      lookupA (setA cl 1 99) 2 = lookupA [((1 : Nat), (10 : Nat)), (2, 20)] 2 ∧
      lookupA (eraseA cl 1) 2 = lookupA [((1 : Nat), (10 : Nat)), (2, 20)] 2 :=
  claim_C3.2.2 _ 1 99 2 (by decide) (by decide)

/-! ### Claim C4 -/

theorem FromFuncs_ok [Inhabited V] (n : Nat) (kf : Nat → K)
    (values : Option (Nat → V)) :
    FromFuncs (n : Int) (some kf) values =
      Except.ok (some ((List.range n).foldl
        (fun acc i => setA acc (kf i)
          (match values with | none => default | some vf => vf i)) [])) := by
  unfold FromFuncs
  rw [if_neg (not_lt.mpr (Int.natCast_nonneg n))]
  rfl

theorem lookupA_foldl_general {α : Type} (l : List α) (kfn : α → K) (vfn : α → V)
    (k : K) :
    lookupA (l.foldl (fun acc x => setA acc (kfn x) (vfn x)) []) k =
      (l.reverse.find? fun x => decide (kfn x = k)).map vfn := by
  have hfold : l.foldl (fun acc x => setA acc (kfn x) (vfn x)) [] =
      (l.map fun x => (kfn x, vfn x)).foldl
        (fun acc kv => setA acc kv.1 kv.2) [] := by
    rw [List.foldl_map]
  rw [hfold, lookupA_foldl_setA, ← List.map_reverse, List.find?_map]
  show (Option.map Prod.snd (Option.map _ _)).or (lookupA [] k) = _
  rw [Option.map_map, show lookupA ([] : List (K × V)) k = none from rfl,
    Option.or_none]
  rfl

theorem nodup_foldl_general {α : Type} (l : List α) (kfn : α → K) (vfn : α → V) :
    (((l.foldl (fun acc x => setA acc (kfn x) (vfn x)) [])).map Prod.fst).Nodup := by
  have hfold : l.foldl (fun acc x => setA acc (kfn x) (vfn x)) [] =
      (l.map fun x => (kfn x, vfn x)).foldl
        (fun acc kv => setA acc kv.1 kv.2) [] := by
    rw [List.foldl_map]
  rw [hfold]
  exact nodup_foldl_setA _ [] (by simp)

theorem lookupA_foldl_range (n : Nat) (kf : Nat → K) (vemit : Nat → V) (k : K) :
    lookupA ((List.range n).foldl (fun acc i => setA acc (kf i) (vemit i)) []) k =
      ((List.range n).reverse.find? fun i => decide (kf i = k)).map vemit :=
  lookupA_foldl_general (List.range n) kf vemit k

/-- Claim C4: `FromFuncs size keys values` panics exactly when `size` is negative
or `keys` is nil.  Otherwise, modelling the i-th generator call as the value
of the generator at index i, it builds the map of the `size` pairs
`(keys i, values i)` with duplicate keys resolved last-wins (the lookup at
`k` is the value paired with the last generated occurrence of `k`), and
when `values` is nil every produced key is mapped to the zero value. -/
theorem claim_C4 [Inhabited V] :
    (∀ (size : Int) (keys : Option (Nat → K)) (values : Option (Nat → V)),
      (∃ e, FromFuncs size keys values = Except.error e) ↔
        (size < 0 ∨ keys = none)) ∧
    (∀ (n : Nat) (kf : Nat → K) (vf : Nat → V),
      ∃ m, FromFuncs (n : Int) (some kf) (some vf) = Except.ok (some m) ∧
        ∀ k, lookupA m k =
          ((List.range n).reverse.find? fun i => decide (kf i = k)).map vf) ∧
    (∀ (n : Nat) (kf : Nat → K),
      ∃ m, FromFuncs (n : Int) (some kf) none = Except.ok (some m) ∧
        (∀ i, i < n → lookupA m (kf i) = some (default : V)) ∧
        (∀ k v, lookupA m k = some v → v = default)) := by
  refine ⟨fun size keys values => ?_, fun n kf vf => ?_, fun n kf => ?_⟩
  · by_cases hs : size < 0
    · simp [FromFuncs, hs]
    · cases keys <;> simp [FromFuncs, hs]
  · exact ⟨_, FromFuncs_ok n kf (some vf), fun k => lookupA_foldl_range n kf vf k⟩
  · refine ⟨_, FromFuncs_ok n kf none, fun i hi => ?_, fun k v hv => ?_⟩
    · rw [lookupA_foldl_range n kf (fun _ => (default : V)) (kf i)]
      have hsome : (((List.range n).reverse.find? fun j =>
          decide (kf j = kf i)).isSome) := by
        rw [List.find?_isSome]
        exact ⟨i, List.mem_reverse.mpr (List.mem_range.mpr hi), by simp⟩
      cases hf : (List.range n).reverse.find? fun j => decide (kf j = kf i) with
      | none => rw [hf] at hsome; exact absurd hsome (by simp)
      | some j => rfl
    · rw [lookupA_foldl_range n kf (fun _ => (default : V)) k] at hv
      cases hf : (List.range n).reverse.find? fun j => decide (kf j = k) with
      | none => rw [hf] at hv; exact absurd hv (by simp)
      | some j => rw [hf] at hv; injection hv with h; exact h.symm

/-- Witness for C4: a negative size makes `FromFuncs` panic. -/
theorem claim_C4_witness :
    ∃ e, FromFuncs (-1 : Int) (some fun i => i) (none : Option (Nat → Nat)) =
      Except.error e :=
  (claim_C4.1 (-1) (some fun i => i) none).mpr (Or.inl (by decide))

/-! ### Claim C5 -/

/-- Claim C5: `FromSlices keys values` is nil exactly for a nil keys slice; on a
non-nil keys slice the lookup at `k` is determined by the last index `i`
with `keys[i] = k` (duplicate keys: last occurrence wins), whose value is
`values[i]` when `i` is within `values` and the zero value of `V` when the
key is surplus; values beyond the length of `keys` are never consulted.
The two concrete examples of the specification are included. -/
theorem claim_C5 [Inhabited V] :
    (∀ values : List V, FromSlices (none : Option (List K)) values = none) ∧
    (∀ (ks : List K) (values : List V),
      ∃ l, FromSlices (some ks) values = some l ∧
        ∀ k, lookupA l k =
          ((ks.enum.reverse.find? fun ik => decide (ik.2 = k)).map
            fun ik => if ik.1 < values.length
              then (values.get? ik.1).getD default else default)) ∧
    (FromSlices (some ["a", "b"]) [(1 : Nat)] = some [("a", 1), ("b", 0)]) ∧
    (FromSlices (some ["a", "b"]) [(1 : Nat), 2, 3] = some [("a", 1), ("b", 2)]) := by
  refine ⟨fun values => rfl, fun ks values => ⟨_, rfl, fun k => ?_⟩, ?_, ?_⟩
  · exact lookupA_foldl_general ks.enum (fun ik => ik.2)
      (fun ik => if ik.1 < values.length
        then (values.get? ik.1).getD default else default) k
  · decide
  · decide

/-! ### Claim C6 -/

/-- Claim C6: the round trip `Items (FromItems pairs)` reproduces, as a set,
exactly the input pairs with duplicate keys collapsed last-write-wins: an
item `(k, v)` is in the output iff the last input item with key `k` carries
value `v`.  Moreover `FromItems nil = nil`, `Items nil = nil`, and `Items`
of an empty non-nil map is an empty non-nil slice. -/
theorem claim_C6 :
    (∀ pairs : List (Item K V),
      ∃ l, Items (FromItems (some pairs)) = some l ∧
        ∀ k v, Item.mk k v ∈ l ↔
          ((pairs.reverse.find? fun it => decide (it.Key = k)).map Item.Value
            = some v)) ∧
    (FromItems (none : Option (List (Item K V))) = none) ∧
    (Items (none : GoMap K V) = none) ∧
    (Items (some ([] : List (K × V))) = some []) := by
  refine ⟨fun pairs => ⟨_, rfl, fun k v => ?_⟩, rfl, rfl, rfl⟩
  have hmem : (Item.mk k v ∈
      (pairs.foldl (fun acc it => setA acc it.Key it.Value) []).map
        fun kv => Item.mk kv.1 kv.2) ↔
      (k, v) ∈ pairs.foldl (fun acc it => setA acc it.Key it.Value) [] := by
    rw [List.mem_map]
    constructor
    · rintro ⟨⟨a, b⟩, hin, heq⟩
      obtain ⟨rfl, rfl⟩ : a = k ∧ b = v := by
        injection heq with h1 h2; exact ⟨h1, h2⟩
      exact hin
    · intro hin
      exact ⟨(k, v), hin, rfl⟩
  rw [hmem, mem_iff_lookupA _ _ _ (nodup_foldl_general pairs Item.Key Item.Value),
    lookupA_foldl_general pairs Item.Key Item.Value k]

/-! ### Claim C8 -/

theorem eraseA_append (u t : List (K × V)) (k : K) (v : V)
    (h : k ∉ u.map Prod.fst) : eraseA (u ++ (k, v) :: t) k = u ++ t := by
  induction u with
  | nil => simp [eraseA]
  | cons kv u' ih =>
    obtain ⟨k0, v0⟩ := kv
    simp only [List.map_cons, List.mem_cons] at h
    push_neg at h
    have h1 : ¬ k0 = k := fun e => h.1 e.symm
    simp only [List.cons_append, eraseA, if_neg h1]
    exact congrArg (List.cons (k0, v0)) (ih h.2)

theorem Delete_loop (fn : K → V → Bool) :
    ∀ (l' u : List (K × V)) (c : Nat),
      ((u ++ l').map Prod.fst).Nodup →
      l'.foldl (fun (acc : Nat × List (K × V)) kv =>
          if fn kv.1 kv.2 then (acc.1 + 1, eraseA acc.2 kv.1) else acc)
        (c, u ++ l') =
      (c + (l'.filter fun kv => fn kv.1 kv.2).length,
       u ++ l'.filter fun kv => !fn kv.1 kv.2) := by
  intro l'
  induction l' with
  | nil => intro u c h; simp
  | cons kv t ih =>
    intro u c h
    obtain ⟨k0, v0⟩ := kv
    have hnod : ((u ++ t).map Prod.fst).Nodup := by
      refine List.Nodup.sublist (List.Sublist.map Prod.fst ?_) h
      exact List.Sublist.append_left (List.sublist_cons_self (k0, v0) t) u
    by_cases hfn : fn k0 v0
    · have hnotu : k0 ∉ u.map Prod.fst := by
        rw [List.map_append] at h
        have hdisj := (List.nodup_append.mp h).2.2
        intro hk
        exact hdisj hk (by simp)
      rw [List.foldl_cons]
      rw [show (if fn k0 v0 then (c + 1, eraseA (u ++ (k0, v0) :: t) k0)
          else (c, u ++ (k0, v0) :: t)) = (c + 1, u ++ t) by
        rw [if_pos hfn, eraseA_append u t k0 v0 hnotu]]
      rw [ih u (c + 1) hnod]
      have hcnt : (((k0, v0) :: t).filter fun kv => fn kv.1 kv.2).length =
          (t.filter fun kv => fn kv.1 kv.2).length + 1 := by
        simp [List.filter_cons, hfn]
      have hrest : (((k0, v0) :: t).filter fun kv => !fn kv.1 kv.2) =
          t.filter fun kv => !fn kv.1 kv.2 := by
        simp [List.filter_cons, hfn]
      rw [hcnt, hrest]
      congr 1
      omega
    · rw [List.foldl_cons]
      rw [show (if fn k0 v0 then (c + 1, eraseA (u ++ (k0, v0) :: t) k0)
          else (c, u ++ (k0, v0) :: t)) = (c, u ++ (k0, v0) :: t) from
        if_neg hfn]
      have hsplit : u ++ (k0, v0) :: t = (u ++ [(k0, v0)]) ++ t := by
        simp
      rw [hsplit, ih (u ++ [(k0, v0)]) c (by rw [← hsplit]; exact h)]
      have hcnt : (((k0, v0) :: t).filter fun kv => fn kv.1 kv.2).length =
          (t.filter fun kv => fn kv.1 kv.2).length := by
        simp [List.filter_cons, hfn]
      have hrest : (((k0, v0) :: t).filter fun kv => !fn kv.1 kv.2) =
          (k0, v0) :: t.filter fun kv => !fn kv.1 kv.2 := by
        simp [List.filter_cons, hfn]
      rw [hcnt, hrest]
      congr 1
      simp

/-- Claim C8: on a well-formed non-nil map, `Delete m fn` returns the number of
entries the predicate accepts and leaves exactly the entries it rejects
(an entry survives iff it was in the map and the predicate is false on it);
on the nil map it returns 0 and is a no-op. -/
theorem claim_C8 :
    (∀ (l : List (K × V)) (fn : K → V → Bool), WF (some l) →
      ∃ dl, Delete (some l) fn =
          ((l.filter fun kv => fn kv.1 kv.2).length, some dl) ∧
        ∀ k v, ((k, v) ∈ dl ↔ ((k, v) ∈ l ∧ fn k v = false))) ∧
    (∀ fn : K → V → Bool, Delete (none : GoMap K V) fn = (0, none)) := by
  refine ⟨fun l fn h => ?_, fun fn => rfl⟩
  have hl := Delete_loop fn l [] 0 (by simpa using h)
  rw [List.nil_append, Nat.zero_add, List.nil_append] at hl
  refine ⟨l.filter fun kv => !fn kv.1 kv.2, ?_, fun k v => ?_⟩
  · show ((l.foldl _ (0, l)).1, some (l.foldl _ (0, l)).2) = _
    rw [hl]
  · rw [List.mem_filter]
    simp

/-- Witness for C8: deleting the value-10 entries of a concrete three-entry
map removes two entries. -/
theorem claim_C8_witness :
    ∃ dl, Delete (some [((1 : Nat), (10 : Nat)), (2, 20), (3, 10)])
        (fun _ v => v == 10) =
        (([((1 : Nat), (10 : Nat)), (2, 20), (3, 10)].filter
          fun kv => kv.2 == 10).length, some dl) ∧
      ∀ k v, ((k, v) ∈ dl ↔
        ((k, v) ∈ [((1 : Nat), (10 : Nat)), (2, 20), (3, 10)] ∧
          (v == 10) = false)) :=
  claim_C8.1 [(1, 10), (2, 20), (3, 10)] (fun _ v => v == 10) (by decide)

/-! ### Claim C9 -/

omit [DecidableEq K] in
theorem mem_keysForValue_fold (l : List (K × V)) (value : V) (equal : V → V → Bool) :
    ∀ (init : List K) (k : K),
      (k ∈ l.foldl (fun ks kv => if equal kv.2 value then ks ++ [kv.1] else ks) init ↔
        (k ∈ init ∨ ∃ v, (k, v) ∈ l ∧ equal v value = true)) := by
  induction l with
  | nil =>
    intro init k
    simp
  | cons kv t ih =>
    intro init k
    obtain ⟨k0, v0⟩ := kv
    rw [List.foldl_cons]
    by_cases he : equal v0 value
    · rw [if_pos he, ih]
      constructor
      · rintro (hin | ⟨v, hv, heq⟩)
        · rcases List.mem_append.mp hin with h1 | h2
          · exact Or.inl h1
          · have hk : k = k0 := by simpa using h2
            exact Or.inr ⟨v0, List.mem_cons.mpr (Or.inl (by rw [hk])), he⟩
        · exact Or.inr ⟨v, List.mem_cons.mpr (Or.inr hv), heq⟩
      · rintro (hin | ⟨v, hvc, heq⟩)
        · exact Or.inl (List.mem_append.mpr (Or.inl hin))
        · rcases List.mem_cons.mp hvc with h1 | h2
          · obtain ⟨rfl, rfl⟩ : k = k0 ∧ v = v0 := by
              injection h1 with a b; exact ⟨a, b⟩
            exact Or.inl (List.mem_append.mpr (Or.inr (by simp)))
          · exact Or.inr ⟨v, h2, heq⟩
    · rw [if_neg he, ih]
      constructor
      · rintro (hin | ⟨v, hv, heq⟩)
        · exact Or.inl hin
        · exact Or.inr ⟨v, List.mem_cons.mpr (Or.inr hv), heq⟩
      · rintro (hin | ⟨v, hvc, heq⟩)
        · exact Or.inl hin
        · rcases List.mem_cons.mp hvc with h1 | h2
          · obtain ⟨rfl, rfl⟩ : k = k0 ∧ v = v0 := by
              injection h1 with a b; exact ⟨a, b⟩
            exact absurd heq (by simp [he])
          · exact Or.inr ⟨v, h2, heq⟩

omit [DecidableEq K] in
/-- Claim C9: `KeysForValue` and `KeysForValueFunc` return nil exactly on the nil
map; on a non-nil map they return a (possibly empty) non-nil slice whose
elements are, as a set, exactly the keys carrying a matching value — with
built-in equality a key is returned iff it is bound to the requested value.
The concrete example of the specification is included. -/
theorem claim_C9 [DecidableEq V] :
    (∀ value : V, KeysForValue (none : GoMap K V) value = none) ∧
    (∀ (value : V) (equal : V → V → Bool),
      KeysForValueFunc (none : GoMap K V) value equal = none) ∧
    (∀ (l : List (K × V)) (value : V) (equal : V → V → Bool),
      ∃ ks, KeysForValueFunc (some l) value equal = some ks ∧
        ∀ k, (k ∈ ks ↔ ∃ v, (k, v) ∈ l ∧ equal v value = true)) ∧
    (∀ (l : List (K × V)) (value : V),
      ∃ ks, KeysForValue (some l) value = some ks ∧
        ∀ k, (k ∈ ks ↔ (k, value) ∈ l)) ∧
    (KeysForValue (some [("a", (1 : Nat)), ("b", 2), ("c", 1)]) 1 =
      some ["a", "c"]) := by
  refine ⟨fun value => rfl, fun value equal => rfl,
    fun l value equal => ⟨_, rfl, fun k => ?_⟩,
    fun l value => ⟨_, rfl, fun k => ?_⟩, by decide⟩
  · rw [mem_keysForValue_fold l value equal [] k]
    simp
  · rw [mem_keysForValue_fold l value (fun v1 v2 => decide (v1 = v2)) [] k]
    constructor
    · rintro (hin | ⟨v, hv, heq⟩)
      · exact absurd hin (List.not_mem_nil k)
      · simp only [decide_eq_true_eq] at heq
        rw [← heq]
        exact hv
    · intro hv
      exact Or.inr ⟨value, hv, by simp⟩

/-! ### Claim C10 -/

/-- Claim C10: `Collect` always returns a non-nil map — in particular collecting
the iterator of the nil map yields an empty non-nil map, unlike `Clone`,
`FromItems` and `FromSlices`, which preserve absence — and the collected
map's lookup at `k` is the value of the last yielded pair with key `k`
(later duplicates overwrite earlier ones). -/
theorem claim_C10 [Inhabited V] :
    (∀ seq : List (K × V), (Collect seq).isSome = true) ∧
    (Collect (iterSeq (none : GoMap K V)) = some []) ∧
    (Clone (none : GoMap K V) = none ∧
      FromItems (none : Option (List (Item K V))) = none ∧
      ∀ values : List V, FromSlices (none : Option (List K)) values = none) ∧
    (∀ (seq : List (K × V)) (k : K),
      lookupGo (Collect seq) k =
        ((seq.reverse.find? fun kv => decide (kv.1 = k)).map Prod.snd)) := by
  refine ⟨fun seq => rfl, rfl,
    ⟨rfl, rfl, fun values => rfl⟩, fun seq k => ?_⟩
  show lookupA (seq.foldl (fun acc kv => setA acc kv.1 kv.2) []) k = _
  rw [lookupA_foldl_setA,
    show lookupA ([] : List (K × V)) k = none from rfl, Option.or_none]

/-! ### Claim C7 -/

/-- Claim C7: the only panicking operations are `Update` on a nil destination and
`FromFuncs` with a negative size or nil keys function (stated as exact
characterizations of their error cases); every other operation accepts the
nil map or nil slice and degrades to a no-op or an empty/nil result. -/
theorem claim_C7 [DecidableEq V] [Inhabited V] :
    (∀ (m1 m2 : GoMap K V), (∃ e, Update m1 m2 = Except.error e) ↔ m1 = none) ∧
    (∀ (size : Int) (keys : Option (Nat → K)) (values : Option (Nat → V)),
      (∃ e, FromFuncs size keys values = Except.error e) ↔
        (size < 0 ∨ keys = none)) ∧
    (Clone (none : GoMap K V) = none) ∧
    (Clear (none : GoMap K V) = none) ∧
    (∀ k : K, Contains (none : GoMap K V) k = false) ∧
    (∀ (k : K) (d : V), Get (none : GoMap K V) k d = d) ∧
    (Keys (none : GoMap K V) = none) ∧
    (Values (none : GoMap K V) = none) ∧
    (Equal (none : GoMap K V) none = true) ∧
    (∀ eq : V → V → Bool, EqualFunc (none : GoMap K V) none eq = true) ∧
    (Items (none : GoMap K V) = none) ∧
    (FromItems (none : Option (List (Item K V))) = none) ∧
    (∀ values : List V, FromSlices (none : Option (List K)) values = none) ∧
    (∀ value : V, KeysForValue (none : GoMap K V) value = none) ∧
    (∀ (value : V) (eq : V → V → Bool),
      KeysForValueFunc (none : GoMap K V) value eq = none) ∧
    (∀ fn : K → V → Bool, Delete (none : GoMap K V) fn = (0, none)) ∧
    (iterSeq (none : GoMap K V) = [] ∧ iterKeysSeq (none : GoMap K V) = [] ∧
      iterValuesSeq (none : GoMap K V) = []) ∧
    (Collect ([] : List (K × V)) = some []) := by
  refine ⟨fun m1 m2 => ?_, fun size keys values => ?_, rfl, rfl, fun k => rfl,
    fun k d => rfl, rfl, rfl, rfl, fun eq => rfl, rfl, rfl, fun values => rfl,
    fun value => rfl, fun value eq => rfl, fun fn => rfl, ⟨rfl, rfl, rfl⟩, rfl⟩
  · cases m1 with
    | none => simp [Update]
    | some l1 => simp [Update]
  · by_cases hs : size < 0
    · simp [FromFuncs, hs]
    · cases keys <;> simp [FromFuncs, hs]

/-- Witness for C7: updating a nil destination map is the error case. -/
theorem claim_C7_witness :
    ∃ e, Update (none : GoMap Nat Nat) (some [(1, 2)]) = Except.error e :=
  (claim_C7.1 none (some [(1, 2)])).mpr rfl

end Maps
